import Mathlib

/-!
Shallow embedding of `src/nthu_scraper/announcement_url_manager.py`
(`AnnouncementURLManager`), the announcement-URL store for incremental
crawling, together with proofs of its specified properties.

Modelling conventions:
* Timestamps are integers (seconds).  A stored date string is either a
  string that `datetime.fromisoformat` parses (represented by the parsed
  time) or a string it rejects (represented by the raw text).
* A Python record dict is a `Record`; a key that may be absent is an
  `Option` field (`none` = key absent or `None`).
* The manager's `url_data` dict is an insertion-ordered association list
  with unique keys (`Store`); well-formedness `(keys s).Nodup` mirrors
  Python dict key uniqueness.
* Code that can raise returns `Except String α`, the error text naming
  the Python exception class.
-/

namespace UrlMgr

/-- A date string as seen by `datetime.fromisoformat`: either a string that
parses to a timestamp `t`, or a malformed string (kept verbatim, since Python
truthiness of the string matters). -/
inductive DateStr where
  | valid (t : Int)
  | malformed (s : String)
deriving DecidableEq

/-- JSON values, for the persisted file that `load` reads. -/
inductive Json where
  | null
  | bool (b : Bool)
  | num (n : Int)
  | str (s : String)
  | arr (elems : List Json)
  | obj (fields : List (String × Json))

/-- One entry of `url_data`: the per-URL record dict.  `failed_attempts` is
`Option Int` because a record loaded from disk may lack the key entirely
(the code always reads it with `.get("failed_attempts", 0)`). -/
structure Record where
  first_seen : Option DateStr
  last_seen : Option DateStr
  last_crawled : Option DateStr
  failed_attempts : Option Int
  metadata : Json

/-- `self.url_data`: an insertion-ordered dict from URL to record. -/
abbrev Store := List (String × Record)

/-- Python `self.url_data.get(u)` / `u in self.url_data` support. -/
def lookup : Store → String → Option Record
  | [], _ => none
  | (k, v) :: rest, u => if k = u then some v else lookup rest u

/-- Python `self.url_data[u] = r`: overwrite in place, else append. -/
def dictSet : Store → String → Record → Store
  | [], u, r => [(u, r)]
  | (k, v) :: rest, u, r =>
      if k = u then (k, r) :: rest else (k, v) :: dictSet rest u r

/-- Python `del self.url_data[u]`: remove the (unique) binding of `u`. -/
def dictDel : Store → String → Store
  | [], _ => []
  | (k, v) :: rest, u => if k = u then rest else (k, v) :: dictDel rest u

/-- The dict's key list, in insertion order. -/
def keys (s : Store) : List String := s.map Prod.fst

/-- Python truthiness of a date-string value (`None` and `""` are falsy). -/
def DateStr.isTruthy : DateStr → Bool
  | .valid _ => true
  | .malformed s => s ≠ ""

/-- Truthiness of `info.get("last_crawled")`. -/
def optTruthy : Option DateStr → Bool
  | none => false
  | some d => d.isTruthy

/-- `datetime.fromisoformat`: succeeds exactly on parsable strings. -/
def fromisoformat : DateStr → Option Int
  | .valid t => some t
  | .malformed _ => none

def secondsPerDay : Int := 86400

def secondsPerHour : Int := 3600

/-- `info.get("failed_attempts", 0)`. -/
def failedD (r : Record) : Int := r.failed_attempts.getD 0

/-- Python `metadata or {}` for an optional dict argument: `None` (and the
already-empty dict) give `{}`; any other dict is returned unchanged. -/
def metadataOrEmpty : Option Json → Json
  | none => Json.obj []
  | some j => j

/-- The record built for a newly seen URL in `add_url`. -/
def freshRecord (now : Int) (metadata : Option Json) : Record :=
  { first_seen := some (.valid now)
    last_seen := some (.valid now)
    last_crawled := none
    failed_attempts := some 0
    metadata := metadataOrEmpty metadata }

/-- `AnnouncementURLManager.add_url`. -/
def add_url (now : Int) (url : String) (metadata : Option Json) (s : Store) :
    Store :=
  match lookup s url with
  | none => dictSet s url (freshRecord now metadata)
  | some r => dictSet s url { r with last_seen := some (.valid now) }

/-- `AnnouncementURLManager.mark_crawled`. -/
def mark_crawled (now : Int) (url : String) (success : Bool) (s : Store) :
    Store :=
  match lookup s url with
  | none => s
  | some r =>
    let r1 := { r with last_crawled := some (DateStr.valid now) }
    if success then
      dictSet s url { r1 with failed_attempts := some 0 }
    else
      dictSet s url { r1 with failed_attempts := some (failedD r1 + 1) }

/-- `AnnouncementURLManager.get_urls_to_crawl`: keep records with
`failed_attempts < 5` (the loop skips `>= 5`), then `sorted(urls)`. -/
def get_urls_to_crawl (s : Store) : List String :=
  ((s.filter (fun p => !(decide (failedD p.2 ≥ 5)))).map Prod.fst).mergeSort
    (fun a b => decide (a ≤ b))

/-- Removal test of `cleanup_old_urls`: `last_seen` read with default `""`,
parsed; a parse failure (`ValueError`/`TypeError`) keeps the URL. -/
def shouldRemove (cutoff : Int) (r : Record) : Bool :=
  match fromisoformat (r.last_seen.getD (.malformed "")) with
  | some t => decide (t < cutoff)
  | none => false

/-- The deletion loop of `cleanup_old_urls`. -/
def delAll (toRemove : List String) (s : Store) : Store :=
  toRemove.foldl (fun acc u => dictDel acc u) s

/-- `AnnouncementURLManager.cleanup_old_urls`: collect stale URLs, then
delete each. -/
def cleanup_old_urls (now : Int) (days : Int) (s : Store) : Store :=
  let cutoff := now - days * secondsPerDay
  let toRemove := (s.filter (fun p => shouldRemove cutoff p.2)).map Prod.fst
  delAll toRemove s

/-- The `failed + 1` write shared by `mark_crawled(success=False)` and
`update_from_full_crawl` (both read with `.get("failed_attempts", 0)`). -/
def bump (r : Record) : Record :=
  { r with failed_attempts := some (failedD r + 1) }

/-- The per-URL body of the missing-URL loop in `update_from_full_crawl`. -/
def incrementFailed (s : Store) (url : String) : Store :=
  match lookup s url with
  | none => s
  | some r => dictSet s url (bump r)

/-- The discovery loop of `update_from_full_crawl`. -/
def addAll (now : Int) (discovered : List String) (s : Store) : Store :=
  discovered.foldl (fun acc u => add_url now u none acc) s

/-- The missing-URL loop of `update_from_full_crawl`. -/
def incrAll (missing : List String) (s : Store) : Store :=
  missing.foldl incrementFailed s

/-- `AnnouncementURLManager.update_from_full_crawl`. -/
def update_from_full_crawl (now : Int) (discovered : List String) (s : Store) :
    Store :=
  let s1 := addAll now discovered s
  let missing := (keys s1).filter (fun u => !(decide (u ∈ discovered)))
  incrAll missing s1

/-- The `failed` count inside `get_statistics`. -/
def failedCount (rs : List Record) : Nat :=
  rs.countP (fun r => decide (failedD r ≥ 5))

/-- One term of the `recently_crawled` generator: the filter
`info.get("last_crawled") and fromisoformat(info["last_crawled"]) > ...`.
A truthy but unparsable string raises `ValueError` (uncaught here). -/
def recentFlag (now : Int) (r : Record) : Except String Bool :=
  if optTruthy r.last_crawled then
    match r.last_crawled with
    | some d =>
      match fromisoformat d with
      | some t => .ok (decide (t > now - 24 * secondsPerHour))
      | none => .error "ValueError"
    | none => .ok false
  else .ok false

/-- The `recently_crawled = sum(...)` generator, left to right. -/
def countRecent (now : Int) : List Record → Except String Nat
  | [] => .ok 0
  | r :: rest => do
      let b ← recentFlag now r
      let n ← countRecent now rest
      .ok (if b then n + 1 else n)

/-- The dict returned by `get_statistics`. -/
structure Statistics where
  total_urls : Nat
  active_urls : Int
  failed_urls : Nat
  recently_crawled : Nat
deriving DecidableEq

/-- `AnnouncementURLManager.get_statistics`. -/
def get_statistics (now : Int) (s : Store) : Except String Statistics :=
  let total := s.length
  let failed := failedCount (s.map Prod.snd)
  match countRecent now (s.map Prod.snd) with
  | .error e => .error e
  | .ok rc =>
      .ok { total_urls := total
            active_urls := (total : Int) - (failed : Int)
            failed_urls := failed
            recently_crawled := rc }

/-- State of the backing JSON file as `load` sees it: absent, present but
rejected by `json.load` (`JSONDecodeError`), or parsed to a JSON value. -/
inductive FileState where
  | missing
  | invalidContent
  | parsed (v : Json)

/-- Python `data.get(key, default)` on a parsed JSON object. -/
def jsonGet (fields : List (String × Json)) (key : String) (default : Json) :
    Json :=
  match fields.find? (fun p => p.1 == key) with
  | some p => p.2
  | none => default

/-- `AnnouncementURLManager.load`: the value assigned to `self.url_data`.
A missing file or a `json.JSONDecodeError` yields `{}`; on parsed JSON the
code runs `data.get("urls", {})`, which raises `AttributeError` when the
top-level value is not an object. -/
def load : FileState → Except String Json
  | .missing => .ok (Json.obj [])
  | .invalidContent => .ok (Json.obj [])
  | .parsed v =>
    match v with
    | .obj fields => .ok (jsonGet fields "urls" (Json.obj []))
    | _ => .error "AttributeError"

/-- The operations of the manager, for store-level invariants.  The two
read-only queries keep `url_data` unchanged. -/
inductive Op where
  | addUrl (now : Int) (url : String) (metadata : Option Json)
  | updateFromFullCrawl (now : Int) (discovered : List String)
  | markCrawled (now : Int) (url : String) (success : Bool)
  | cleanupOldUrls (now : Int) (days : Int)
  | getUrlsToCrawl
  | getStatistics (now : Int)

/-- Effect of each operation on `url_data`. -/
def applyOp : Op → Store → Store
  | .addUrl now url m, s => add_url now url m s
  | .updateFromFullCrawl now d, s => update_from_full_crawl now d s
  | .markCrawled now url b, s => mark_crawled now url b s
  | .cleanupOldUrls now days, s => cleanup_old_urls now days s
  | .getUrlsToCrawl, s => s
  | .getStatistics _, s => s

/-! ### Concrete sample data for closed-instance checks -/

/-- A minimal record with a chosen `failed_attempts` value. -/
def sampleRec (fa : Option Int) : Record :=
  { first_seen := some (.valid 0)
    last_seen := some (.valid 0)
    last_crawled := none
    failed_attempts := fa
    metadata := Json.obj [] }

/-- A record with nontrivial metadata and timestamps, for frame checks. -/
def metaRec : Record :=
  { first_seen := some (.valid 1)
    last_seen := some (.valid 2)
    last_crawled := some (.valid 3)
    failed_attempts := some 2
    metadata := Json.obj [("title", Json.str "old")] }

/-- A store whose single record has a truthy but unparsable `last_crawled`
string: the input on which `get_statistics` hits an uncaught `ValueError`. -/
def storeMalformedTs : Store :=
  [("https://example.com/a",
    { first_seen := some (.valid 0)
      last_seen := some (.valid 0)
      last_crawled := some (.malformed "not-a-date")
      failed_attempts := some 0
      metadata := Json.obj [] })]

/-- A record with a chosen `last_seen`, for cleanup checks. -/
def seenRec (ls : Option DateStr) : Record :=
  { first_seen := some (.valid 0)
    last_seen := ls
    last_crawled := none
    failed_attempts := some 0
    metadata := Json.obj [] }

/-- A record whose dict lacks the `failed_attempts` key. -/
def noFaRec : Record :=
  { first_seen := some (.valid 0)
    last_seen := some (.valid 0)
    last_crawled := none
    failed_attempts := none
    metadata := Json.obj [] }

/-! ### Dictionary lemmas -/

@[simp] theorem keys_nil : keys ([] : Store) = [] := rfl

@[simp] theorem keys_cons (p : String × Record) (s : Store) :
    keys (p :: s) = p.1 :: keys s := rfl

theorem mem_keys_of_mem {s : Store} {u : String} {r : Record}
    (h : (u, r) ∈ s) : u ∈ keys s :=
  List.mem_map_of_mem Prod.fst h

theorem lookup_eq_none_iff (s : Store) (u : String) :
    lookup s u = none ↔ u ∉ keys s := by
  induction s with
  | nil => simp [lookup]
  | cons p rest ih =>
    obtain ⟨k, v⟩ := p
    by_cases h : k = u
    · subst h
      simp [lookup]
    · simp [lookup, h, ih, Ne.symm h]

theorem mem_of_lookup_eq_some {s : Store} {u : String} {r : Record}
    (h : lookup s u = some r) : (u, r) ∈ s := by
  induction s with
  | nil => simp [lookup] at h
  | cons p rest ih =>
    obtain ⟨k, v⟩ := p
    by_cases hk : k = u
    · subst hk
      simp [lookup] at h
      subst h
      exact List.mem_cons_self _ _
    · simp only [lookup, if_neg hk] at h
      exact List.mem_cons_of_mem _ (ih h)

theorem lookup_eq_some_of_mem {s : Store} {u : String} {r : Record}
    (hwf : (keys s).Nodup) (h : (u, r) ∈ s) : lookup s u = some r := by
  induction s with
  | nil => simp at h
  | cons p rest ih =>
    obtain ⟨k, v⟩ := p
    rw [keys_cons, List.nodup_cons] at hwf
    rcases List.mem_cons.mp h with heq | hmem
    · cases heq
      simp [lookup]
    · have hne : k ≠ u := by
        intro hk
        subst hk
        exact hwf.1 (mem_keys_of_mem hmem)
      simp only [lookup, if_neg hne]
      exact ih hwf.2 hmem

theorem lookup_dictSet (s : Store) (u v : String) (r : Record) :
    lookup (dictSet s u r) v = if u = v then some r else lookup s v := by
  induction s with
  | nil => by_cases h : u = v <;> simp [dictSet, lookup, h]
  | cons p rest ih =>
    obtain ⟨k, w⟩ := p
    by_cases hk : k = u
    · subst hk
      by_cases hv : k = v
      · subst hv
        simp [dictSet, lookup]
      · simp [dictSet, lookup, hv]
    · by_cases hv : k = v
      · subst hv
        have hne : ¬ u = k := fun h => hk h.symm
        simp [dictSet, lookup, hk, hne]
      · simp [dictSet, lookup, hk, hv, ih]

theorem keys_dictSet (s : Store) (u : String) (r : Record) :
    keys (dictSet s u r) = if u ∈ keys s then keys s else keys s ++ [u] := by
  induction s with
  | nil => simp [dictSet]
  | cons p rest ih =>
    obtain ⟨k, w⟩ := p
    by_cases hk : k = u
    · subst hk
      simp [dictSet]
    · have hne : ¬ u = k := fun h => hk h.symm
      by_cases hm : u ∈ keys rest
      · simp [dictSet, hk, hne, hm, ih]
      · simp [dictSet, hk, hne, hm, ih]

theorem nodup_keys_dictSet {s : Store} (u : String) (r : Record)
    (hwf : (keys s).Nodup) : (keys (dictSet s u r)).Nodup := by
  rw [keys_dictSet]
  by_cases hm : u ∈ keys s
  · simpa [hm] using hwf
  · rw [if_neg hm]
    refine List.Nodup.append hwf (List.nodup_singleton u) ?_
    intro a ha hb
    rw [List.mem_singleton] at hb
    subst hb
    exact hm ha

theorem dictDel_sublist (s : Store) (u : String) :
    List.Sublist (dictDel s u) s := by
  induction s with
  | nil => simp [dictDel]
  | cons p rest ih =>
    obtain ⟨k, v⟩ := p
    by_cases hk : k = u
    · simp only [dictDel, if_pos hk]
      exact List.sublist_cons_self _ _
    · simp only [dictDel, if_neg hk]
      exact List.Sublist.cons₂ _ ih

theorem nodup_keys_dictDel {s : Store} (u : String)
    (hwf : (keys s).Nodup) : (keys (dictDel s u)).Nodup :=
  hwf.sublist ((dictDel_sublist s u).map Prod.fst)

theorem lookup_dictDel {s : Store} (u v : String)
    (hwf : (keys s).Nodup) :
    lookup (dictDel s u) v = if u = v then none else lookup s v := by
  induction s with
  | nil => simp [dictDel, lookup]
  | cons p rest ih =>
    obtain ⟨k, w⟩ := p
    rw [keys_cons, List.nodup_cons] at hwf
    by_cases hk : k = u
    · subst hk
      simp only [dictDel, if_pos rfl]
      by_cases hv : k = v
      · subst hv
        simp [lookup, (lookup_eq_none_iff rest k).mpr hwf.1]
      · simp [lookup, hv]
    · by_cases hv : k = v
      · subst hv
        have hne : ¬ u = k := fun h => hk h.symm
        simp [dictDel, lookup, hk, hne]
      · simp [dictDel, lookup, hk, hv, ih hwf.2]

theorem nodup_keys_delAll (l : List String) (s : Store)
    (hwf : (keys s).Nodup) : (keys (delAll l s)).Nodup := by
  induction l generalizing s with
  | nil => simpa [delAll] using hwf
  | cons a t ih =>
    simp only [delAll, List.foldl_cons]
    exact ih (dictDel s a) (nodup_keys_dictDel a hwf)

theorem lookup_delAll (l : List String) (s : Store) (v : String)
    (hwf : (keys s).Nodup) :
    lookup (delAll l s) v = if v ∈ l then none else lookup s v := by
  induction l generalizing s with
  | nil => simp [delAll]
  | cons a t ih =>
    have hwf' := nodup_keys_dictDel a hwf
    have step : delAll (a :: t) s = delAll t (dictDel s a) := by
      simp [delAll]
    rw [step, ih (dictDel s a) hwf', lookup_dictDel a v hwf]
    by_cases hv : v = a
    · subst hv
      simp
    · have hav : ¬ a = v := fun h => hv h.symm
      by_cases hm : v ∈ t <;> simp [hv, hm, hav]

/-! ### Operation-level lemmas -/

theorem lookup_add_url_ne (now : Int) (u : String) (m : Option Json)
    (s : Store) (v : String) (h : u ≠ v) :
    lookup (add_url now u m s) v = lookup s v := by
  unfold add_url
  cases lookup s u <;> simp [lookup_dictSet, h]

theorem lookup_add_url_self (now : Int) (u : String) (m : Option Json)
    (s : Store) :
    lookup (add_url now u m s) u =
      some (match lookup s u with
            | some r => { r with last_seen := some (DateStr.valid now) }
            | none => freshRecord now m) := by
  unfold add_url
  cases lookup s u <;> simp [lookup_dictSet]

theorem nodup_keys_add_url (now : Int) (u : String) (m : Option Json)
    (s : Store) (hwf : (keys s).Nodup) :
    (keys (add_url now u m s)).Nodup := by
  unfold add_url
  cases lookup s u <;> exact nodup_keys_dictSet _ _ hwf

theorem mem_keys_add_url (now : Int) (u : String) (m : Option Json)
    (s : Store) (v : String) :
    v ∈ keys (add_url now u m s) ↔ v ∈ keys s ∨ v = u := by
  unfold add_url
  cases hl : lookup s u
  · have hu : u ∉ keys s := (lookup_eq_none_iff s u).mp hl
    rw [keys_dictSet, if_neg hu]
    simp [List.mem_append]
  · have hu : u ∈ keys s := mem_keys_of_mem (mem_of_lookup_eq_some hl)
    rw [keys_dictSet, if_pos hu]
    constructor
    · exact Or.inl
    · rintro (hv | rfl)
      · exact hv
      · exact hu

theorem addAll_cons (now : Int) (a : String) (t : List String) (s : Store) :
    addAll now (a :: t) s = addAll now t (add_url now a none s) := by
  simp [addAll]

theorem lookup_addAll_not_mem (now : Int) (d : List String) (s : Store)
    (v : String) (h : v ∉ d) :
    lookup (addAll now d s) v = lookup s v := by
  induction d generalizing s with
  | nil => simp [addAll]
  | cons a t ih =>
    have h' : v ≠ a ∧ v ∉ t := by simpa [not_or] using h
    rw [addAll_cons, ih _ h'.2, lookup_add_url_ne now a none s v (Ne.symm h'.1)]

theorem lookup_addAll_mem (now : Int) (d : List String) (s : Store)
    (v : String) (h : v ∈ d) :
    lookup (addAll now d s) v =
      some (match lookup s v with
            | some r => { r with last_seen := some (DateStr.valid now) }
            | none => freshRecord now none) := by
  induction d generalizing s with
  | nil => simp at h
  | cons a t ih =>
    rw [addAll_cons]
    by_cases hm : v ∈ t
    · rw [ih _ hm]
      by_cases hav : a = v
      · subst hav
        rw [lookup_add_url_self]
        cases lookup s a <;> simp [freshRecord]
      · rw [lookup_add_url_ne now a none s v hav]
    · have hva : v = a := by
        rcases List.mem_cons.mp h with h1 | h2
        · exact h1
        · exact absurd h2 hm
      subst hva
      rw [lookup_addAll_not_mem now t _ v hm, lookup_add_url_self]

theorem nodup_keys_addAll (now : Int) (d : List String) (s : Store)
    (hwf : (keys s).Nodup) : (keys (addAll now d s)).Nodup := by
  induction d generalizing s with
  | nil => simpa [addAll] using hwf
  | cons a t ih =>
    rw [addAll_cons]
    exact ih _ (nodup_keys_add_url now a none s hwf)

theorem mem_keys_addAll (now : Int) (d : List String) (s : Store)
    (v : String) : v ∈ keys (addAll now d s) ↔ v ∈ keys s ∨ v ∈ d := by
  induction d generalizing s with
  | nil => simp [addAll]
  | cons a t ih =>
    rw [addAll_cons, ih, mem_keys_add_url]
    simp only [List.mem_cons]
    tauto

theorem incrAll_cons (a : String) (t : List String) (s : Store) :
    incrAll (a :: t) s = incrAll t (incrementFailed s a) := by
  simp [incrAll]

theorem lookup_incrementFailed_ne (s : Store) (a v : String) (h : a ≠ v) :
    lookup (incrementFailed s a) v = lookup s v := by
  unfold incrementFailed
  cases lookup s a <;> simp [lookup_dictSet, h]

theorem lookup_incrementFailed_self (s : Store) (a : String) :
    lookup (incrementFailed s a) a = (lookup s a).map bump := by
  unfold incrementFailed
  cases hl : lookup s a <;> simp [hl, lookup_dictSet]

theorem lookup_incrAll (l : List String) (s : Store) (v : String)
    (hnd : l.Nodup) :
    lookup (incrAll l s) v =
      if v ∈ l then (lookup s v).map bump else lookup s v := by
  induction l generalizing s with
  | nil => simp [incrAll]
  | cons a t ih =>
    rw [List.nodup_cons] at hnd
    rw [incrAll_cons]
    by_cases hva : v = a
    · subst hva
      rw [ih _ hnd.2, if_neg hnd.1, lookup_incrementFailed_self,
        if_pos (List.mem_cons_self v t)]
    · by_cases hm : v ∈ t
      · rw [ih _ hnd.2, if_pos hm, lookup_incrementFailed_ne s a v (Ne.symm hva),
          if_pos (List.mem_cons_of_mem a hm)]
      · rw [ih _ hnd.2, if_neg hm, lookup_incrementFailed_ne s a v (Ne.symm hva),
          if_neg (by simp [List.mem_cons, hva, hm])]

theorem lookup_update_from_full_crawl (now : Int) (d : List String) (s : Store)
    (hwf : (keys s).Nodup) (v : String) :
    lookup (update_from_full_crawl now d s) v =
      if v ∈ d then
        some (match lookup s v with
              | some r => { r with last_seen := some (DateStr.valid now) }
              | none => freshRecord now none)
      else (lookup s v).map bump := by
  have hwf1 : (keys (addAll now d s)).Nodup := nodup_keys_addAll now d s hwf
  have hnd : ((keys (addAll now d s)).filter
      (fun u => !(decide (u ∈ d)))).Nodup := hwf1.filter _
  have hu : update_from_full_crawl now d s =
      incrAll ((keys (addAll now d s)).filter (fun u => !(decide (u ∈ d))))
        (addAll now d s) := rfl
  rw [hu, lookup_incrAll _ _ _ hnd]
  by_cases hd : v ∈ d
  · have hnm : v ∉ (keys (addAll now d s)).filter (fun u => !(decide (u ∈ d))) := by
      intro hvm
      have := (List.mem_filter.mp hvm).2
      simp [hd] at this
    rw [if_neg hnm, if_pos hd, lookup_addAll_mem now d s v hd]
  · rw [if_neg hd]
    by_cases hk : v ∈ keys (addAll now d s)
    · have hvm : v ∈ (keys (addAll now d s)).filter (fun u => !(decide (u ∈ d))) :=
        List.mem_filter.mpr ⟨hk, by simp [hd]⟩
      rw [if_pos hvm, lookup_addAll_not_mem now d s v hd]
    · have hnm : v ∉ (keys (addAll now d s)).filter (fun u => !(decide (u ∈ d))) :=
        fun hvm => hk (List.mem_filter.mp hvm).1
      have hks : v ∉ keys s := fun hv => hk ((mem_keys_addAll now d s v).mpr (Or.inl hv))
      rw [if_neg hnm, lookup_addAll_not_mem now d s v hd,
        (lookup_eq_none_iff s v).mpr hks]
      rfl

theorem lookup_cleanup_old_urls (now days : Int) (s : Store)
    (hwf : (keys s).Nodup) (v : String) :
    lookup (cleanup_old_urls now days s) v =
      match lookup s v with
      | none => none
      | some r =>
          if shouldRemove (now - days * secondsPerDay) r then none
          else some r := by
  have hcl : cleanup_old_urls now days s =
      delAll ((s.filter (fun p =>
        shouldRemove (now - days * secondsPerDay) p.2)).map Prod.fst) s := rfl
  rw [hcl, lookup_delAll _ _ _ hwf]
  cases hl : lookup s v with
  | none =>
    have hks : v ∉ keys s := (lookup_eq_none_iff s v).mp hl
    have hnm : v ∉ (s.filter (fun p =>
        shouldRemove (now - days * secondsPerDay) p.2)).map Prod.fst := by
      intro hvm
      rcases List.mem_map.mp hvm with ⟨x, hx, hxv⟩
      exact hks (hxv ▸ mem_keys_of_mem (List.mem_filter.mp hx).1)
    rw [if_neg hnm]
  | some r =>
    by_cases hr : shouldRemove (now - days * secondsPerDay) r
    · have hvm : v ∈ (s.filter (fun p =>
          shouldRemove (now - days * secondsPerDay) p.2)).map Prod.fst := by
        refine List.mem_map.mpr ⟨(v, r), List.mem_filter.mpr ⟨mem_of_lookup_eq_some hl, ?_⟩, rfl⟩
        simpa using hr
      rw [if_pos hvm]
      simp [hr]
    · have hnm : v ∉ (s.filter (fun p =>
          shouldRemove (now - days * secondsPerDay) p.2)).map Prod.fst := by
        intro hvm
        rcases List.mem_map.mp hvm with ⟨x, hx, hxv⟩
        obtain ⟨hxs, hxr⟩ := List.mem_filter.mp hx
        obtain ⟨x1, x2⟩ := x
        cases hxv
        have : lookup s x1 = some x2 := lookup_eq_some_of_mem hwf hxs
        rw [hl] at this
        cases this
        exact hr (by simpa using hxr)
      rw [if_neg hnm]
      simp [hr]

theorem lookup_mark_crawled_ne (now : Int) (u : String) (b : Bool) (s : Store)
    (v : String) (h : u ≠ v) :
    lookup (mark_crawled now u b s) v = lookup s v := by
  unfold mark_crawled
  cases lookup s u
  · rfl
  · cases b <;> simp [lookup_dictSet, h]

theorem lookup_mark_crawled_self (now : Int) (u : String) (s : Store)
    (r : Record) (h : lookup s u = some r) :
    lookup (mark_crawled now u true s) u =
      some { r with last_crawled := some (DateStr.valid now),
                    failed_attempts := some 0 } ∧
    lookup (mark_crawled now u false s) u =
      some { r with last_crawled := some (DateStr.valid now),
                    failed_attempts := some (failedD r + 1) } := by
  unfold mark_crawled
  rw [h]
  constructor <;> simp [lookup_dictSet, failedD]

theorem failedD_bump (r : Record) : failedD (bump r) = failedD r + 1 := rfl

theorem mem_get_urls_to_crawl (s : Store) (hwf : (keys s).Nodup) (u : String) :
    u ∈ get_urls_to_crawl s ↔ ∃ r, lookup s u = some r ∧ failedD r < 5 := by
  unfold get_urls_to_crawl
  rw [List.mem_mergeSort]
  constructor
  · intro hm
    rcases List.mem_map.mp hm with ⟨x, hx, hxu⟩
    obtain ⟨x1, x2⟩ := x
    obtain ⟨hxs, hxp⟩ := List.mem_filter.mp hx
    cases hxu
    refine ⟨x2, lookup_eq_some_of_mem hwf hxs, ?_⟩
    simpa using hxp
  · rintro ⟨r, hr, hlt⟩
    refine List.mem_map.mpr ⟨(u, r),
      List.mem_filter.mpr ⟨mem_of_lookup_eq_some hr, ?_⟩, rfl⟩
    simpa using hlt

theorem sorted_get_urls_to_crawl (s : Store) :
    List.Pairwise (fun a b : String => a ≤ b) (get_urls_to_crawl s) := by
  unfold get_urls_to_crawl
  refine List.Pairwise.imp ?_ (List.sorted_mergeSort ?_ ?_ _)
  · intro a b hab
    exact of_decide_eq_true hab
  · intro a b c hab hbc
    exact decide_eq_true (le_trans (of_decide_eq_true hab) (of_decide_eq_true hbc))
  · intro a b
    rcases le_total a b with h | h <;> simp [h]

theorem get_urls_to_crawl_perm (s t : Store) (hp : s.Perm t) :
    get_urls_to_crawl s = get_urls_to_crawl t := by
  have h1 : (get_urls_to_crawl s).Perm (get_urls_to_crawl t) := by
    unfold get_urls_to_crawl
    exact ((List.mergeSort_perm _ _).trans ((hp.filter _).map _)).trans
      (List.mergeSort_perm _ _).symm
  exact List.eq_of_perm_of_sorted h1 (sorted_get_urls_to_crawl s)
    (sorted_get_urls_to_crawl t)

/-! ### Claims -/

/-- C1: `update_from_full_crawl` first registers every discovered URL — a
known record keeps all fields (in particular `failed_attempts`) except that
`last_seen` is set to now, an unknown one gets a fresh record — and then
increments `failed_attempts` by exactly 1 for every previously known URL
absent from the discovered set; an unknown undiscovered URL stays absent. -/
theorem update_from_full_crawl_reconciles (now : Int) (d : List String)
    (s : Store) (hwf : (keys s).Nodup) (u : String) :
    (∀ r, lookup s u = some r → u ∈ d →
      lookup (update_from_full_crawl now d s) u =
        some { r with last_seen := some (DateStr.valid now) }) ∧
    (lookup s u = none → u ∈ d →
      lookup (update_from_full_crawl now d s) u = some (freshRecord now none)) ∧
    (∀ r, lookup s u = some r → u ∉ d →
      lookup (update_from_full_crawl now d s) u = some (bump r) ∧
        failedD (bump r) = failedD r + 1) ∧
    (lookup s u = none → u ∉ d →
      lookup (update_from_full_crawl now d s) u = none) := by
  refine ⟨?_, ?_, ?_, ?_⟩
  · intro r hr hd
    rw [lookup_update_from_full_crawl now d s hwf u, if_pos hd, hr]
  · intro hr hd
    rw [lookup_update_from_full_crawl now d s hwf u, if_pos hd, hr]
  · intro r hr hd
    refine ⟨?_, rfl⟩
    rw [lookup_update_from_full_crawl now d s hwf u, if_neg hd, hr]
    rfl
  · intro hr hd
    rw [lookup_update_from_full_crawl now d s hwf u, if_neg hd, hr]
    rfl

/-- C1 witness: on known URLs a.com, b.com, c.com with `failed_attempts = 0`,
`update_from_full_crawl` over the discovered set containing a.com and b.com
leaves a.com at 0 (only `last_seen` bumped) and moves c.com to 1. -/
theorem update_from_full_crawl_reconciles_witness :
    (keys [("a.com", sampleRec (some 0)), ("b.com", sampleRec (some 0)),
      ("c.com", sampleRec (some 0))]).Nodup ∧
    lookup (update_from_full_crawl 5 ["a.com", "b.com"]
        [("a.com", sampleRec (some 0)), ("b.com", sampleRec (some 0)),
         ("c.com", sampleRec (some 0))]) "c.com" =
      some (bump (sampleRec (some 0))) ∧
    lookup (update_from_full_crawl 5 ["a.com", "b.com"]
        [("a.com", sampleRec (some 0)), ("b.com", sampleRec (some 0)),
         ("c.com", sampleRec (some 0))]) "a.com" =
      some { sampleRec (some 0) with last_seen := some (DateStr.valid 5) } ∧
    failedD (bump (sampleRec (some 0))) = 1 ∧ failedD (sampleRec (some 0)) = 0 :=
  ⟨by decide,
   ((update_from_full_crawl_reconciles 5 ["a.com", "b.com"]
      [("a.com", sampleRec (some 0)), ("b.com", sampleRec (some 0)),
       ("c.com", sampleRec (some 0))] (by decide) "c.com").2.2.1
        (sampleRec (some 0)) rfl (by decide)).1,
   (update_from_full_crawl_reconciles 5 ["a.com", "b.com"]
      [("a.com", sampleRec (some 0)), ("b.com", sampleRec (some 0)),
       ("c.com", sampleRec (some 0))] (by decide) "a.com").1
        (sampleRec (some 0)) rfl (by decide),
   by decide, by decide⟩

/-- C2: on a known URL, `mark_crawled` sets `last_crawled` to now and, on
success, resets `failed_attempts` to 0; on failure it increments
`failed_attempts` by exactly 1. -/
theorem mark_crawled_known_updates (now : Int) (u : String) (s : Store)
    (r : Record) (h : lookup s u = some r) :
    lookup (mark_crawled now u true s) u =
      some { r with last_crawled := some (DateStr.valid now),
                    failed_attempts := some 0 } ∧
    lookup (mark_crawled now u false s) u =
      some { r with last_crawled := some (DateStr.valid now),
                    failed_attempts := some (failedD r + 1) } :=
  lookup_mark_crawled_self now u s r h

/-- C2 witness: a record at `failed_attempts = 4` goes to 0 on a successful
crawl and to 5 on a failed one, `last_crawled` set to now in both cases. -/
theorem mark_crawled_known_updates_witness :
    lookup [("a.com", sampleRec (some 4))] "a.com" = some (sampleRec (some 4)) ∧
    lookup (mark_crawled 9 "a.com" true [("a.com", sampleRec (some 4))]) "a.com" =
      some { sampleRec (some 4) with
               last_crawled := some (DateStr.valid 9),
               failed_attempts := some 0 } ∧
    lookup (mark_crawled 9 "a.com" false [("a.com", sampleRec (some 4))]) "a.com" =
      some { sampleRec (some 4) with
               last_crawled := some (DateStr.valid 9),
               failed_attempts := some (failedD (sampleRec (some 4)) + 1) } ∧
    failedD (sampleRec (some 4)) + 1 = 5 :=
  ⟨rfl,
   (mark_crawled_known_updates 9 "a.com" [("a.com", sampleRec (some 4))]
      (sampleRec (some 4)) rfl).1,
   (mark_crawled_known_updates 9 "a.com" [("a.com", sampleRec (some 4))]
      (sampleRec (some 4)) rfl).2,
   by decide⟩

/-- C3: `get_urls_to_crawl` returns exactly the URLs whose
`failed_attempts < 5`, in lexicographically sorted order, and the result is
a function of the store contents alone (any reordering of the underlying
dict entries yields the identical list). -/
theorem get_urls_to_crawl_correct (s t : Store) (hwf : (keys s).Nodup)
    (hp : s.Perm t) :
    (∀ u, u ∈ get_urls_to_crawl s ↔ ∃ r, lookup s u = some r ∧ failedD r < 5) ∧
    List.Pairwise (fun a b : String => a ≤ b) (get_urls_to_crawl s) ∧
    get_urls_to_crawl s = get_urls_to_crawl t :=
  ⟨mem_get_urls_to_crawl s hwf, sorted_get_urls_to_crawl s,
    get_urls_to_crawl_perm s t hp⟩

/-- C3 witness: with eligible z.com, a.com, m.com, y.com (the last at
`failed_attempts = 4`) and x.com at 5, every eligible URL is in the plan,
x.com is absent, y.com present, and the plan is sorted. -/
theorem get_urls_to_crawl_correct_witness :
    (keys [("z.com", sampleRec (some 0)), ("a.com", sampleRec (some 0)),
      ("m.com", sampleRec (some 0)), ("x.com", sampleRec (some 5)),
      ("y.com", sampleRec (some 4))]).Nodup ∧
    "z.com" ∈ get_urls_to_crawl [("z.com", sampleRec (some 0)),
      ("a.com", sampleRec (some 0)), ("m.com", sampleRec (some 0)),
      ("x.com", sampleRec (some 5)), ("y.com", sampleRec (some 4))] ∧
    "y.com" ∈ get_urls_to_crawl [("z.com", sampleRec (some 0)),
      ("a.com", sampleRec (some 0)), ("m.com", sampleRec (some 0)),
      ("x.com", sampleRec (some 5)), ("y.com", sampleRec (some 4))] ∧
    "x.com" ∉ get_urls_to_crawl [("z.com", sampleRec (some 0)),
      ("a.com", sampleRec (some 0)), ("m.com", sampleRec (some 0)),
      ("x.com", sampleRec (some 5)), ("y.com", sampleRec (some 4))] ∧
    List.Pairwise (fun a b : String => a ≤ b)
      (get_urls_to_crawl [("z.com", sampleRec (some 0)),
        ("a.com", sampleRec (some 0)), ("m.com", sampleRec (some 0)),
        ("x.com", sampleRec (some 5)), ("y.com", sampleRec (some 4))]) := by
  refine ⟨by decide, ?_, ?_, ?_, ?_⟩
  · exact ((get_urls_to_crawl_correct
      [("z.com", sampleRec (some 0)), ("a.com", sampleRec (some 0)),
       ("m.com", sampleRec (some 0)), ("x.com", sampleRec (some 5)),
       ("y.com", sampleRec (some 4))] _ (by decide) (List.Perm.refl _)).1
        "z.com").mpr ⟨sampleRec (some 0), rfl, by decide⟩
  · exact ((get_urls_to_crawl_correct
      [("z.com", sampleRec (some 0)), ("a.com", sampleRec (some 0)),
       ("m.com", sampleRec (some 0)), ("x.com", sampleRec (some 5)),
       ("y.com", sampleRec (some 4))] _ (by decide) (List.Perm.refl _)).1
        "y.com").mpr ⟨sampleRec (some 4), rfl, by decide⟩
  · intro hmem
    obtain ⟨r, hr, hlt⟩ := ((get_urls_to_crawl_correct
      [("z.com", sampleRec (some 0)), ("a.com", sampleRec (some 0)),
       ("m.com", sampleRec (some 0)), ("x.com", sampleRec (some 5)),
       ("y.com", sampleRec (some 4))] _ (by decide) (List.Perm.refl _)).1
        "x.com").mp hmem
    rw [show lookup [("z.com", sampleRec (some 0)), ("a.com", sampleRec (some 0)),
      ("m.com", sampleRec (some 0)), ("x.com", sampleRec (some 5)),
      ("y.com", sampleRec (some 4))] "x.com" = some (sampleRec (some 5)) from rfl]
      at hr
    obtain rfl := Option.some_inj.mp hr
    exact absurd hlt (by decide)
  · exact (get_urls_to_crawl_correct
      [("z.com", sampleRec (some 0)), ("a.com", sampleRec (some 0)),
       ("m.com", sampleRec (some 0)), ("x.com", sampleRec (some 5)),
       ("y.com", sampleRec (some 4))] _ (by decide) (List.Perm.refl _)).2.1

/-- C4: re-adding an existing URL updates only its `last_seen`; `first_seen`,
`failed_attempts`, `last_crawled` and the stored metadata are untouched even
when fresh metadata is supplied, and every other record is unchanged. -/
theorem add_url_existing_frame (now : Int) (u : String) (m : Option Json)
    (s : Store) (r : Record) (h : lookup s u = some r) :
    lookup (add_url now u m s) u =
      some { r with last_seen := some (DateStr.valid now) } ∧
    ∀ v, v ≠ u → lookup (add_url now u m s) v = lookup s v := by
  constructor
  · rw [lookup_add_url_self, h]
  · intro v hv
    exact lookup_add_url_ne now u m s v (Ne.symm hv)

/-- C4 witness: re-adding a.com with fresh metadata keeps its old metadata,
`first_seen`, `failed_attempts` and `last_crawled`, bumps only `last_seen`,
and leaves the lookup of any other URL unchanged. -/
theorem add_url_existing_frame_witness :
    lookup [("a.com", metaRec)] "a.com" = some metaRec ∧
    lookup (add_url 9 "a.com" (some (Json.obj [("title", Json.str "new")]))
        [("a.com", metaRec)]) "a.com" =
      some { metaRec with last_seen := some (DateStr.valid 9) } ∧
    lookup (add_url 9 "a.com" (some (Json.obj [("title", Json.str "new")]))
        [("a.com", metaRec)]) "b.com" = lookup [("a.com", metaRec)] "b.com" :=
  ⟨rfl,
   (add_url_existing_frame 9 "a.com" (some (Json.obj [("title", Json.str "new")]))
      [("a.com", metaRec)] metaRec rfl).1,
   (add_url_existing_frame 9 "a.com" (some (Json.obj [("title", Json.str "new")]))
      [("a.com", metaRec)] metaRec rfl).2 "b.com" (by decide)⟩

/-- C5: contrary to the claim, `get_statistics` propagates the `ValueError`
of `datetime.fromisoformat` when a record's `last_crawled` holds a truthy
but unparsable timestamp string: unlike `cleanup_old_urls`, the parse in the
`recently_crawled` generator is not guarded by a try/except. -/
theorem get_statistics_raises_on_malformed_last_crawled :
    get_statistics 0 storeMalformedTs = Except.error "ValueError" := rfl

/-- C6: `cleanup_old_urls(days)` removes exactly the records whose
`last_seen` parses to a time strictly before `now − days`, and retains every
record whose `last_seen` is missing or unparsable. -/
theorem cleanup_old_urls_correct (now days : Int) (s : Store)
    (hwf : (keys s).Nodup) (u : String) :
    lookup (cleanup_old_urls now days s) u =
      match lookup s u with
      | none => none
      | some r =>
          match r.last_seen with
          | some (DateStr.valid t) =>
              if t < now - days * secondsPerDay then none else some r
          | _ => some r := by
  rw [lookup_cleanup_old_urls now days s hwf u]
  cases hl : lookup s u with
  | none => rfl
  | some r =>
    cases hls : r.last_seen with
    | none => simp [shouldRemove, fromisoformat, hls]
    | some d =>
      cases d with
      | valid t => simp [shouldRemove, fromisoformat, hls]
      | malformed str => simp [shouldRemove, fromisoformat, hls]

/-- C6 witness: with `now = 0` and `days = 90`, a record last seen 100 days
ago is removed, one last seen 10 days ago is retained, and one with an
unparsable `last_seen` is retained. -/
theorem cleanup_old_urls_correct_witness :
    (keys [("old.com", seenRec (some (DateStr.valid (-8640000)))),
      ("new.com", seenRec (some (DateStr.valid (-864000)))),
      ("bad.com", seenRec (some (DateStr.malformed "junk")))]).Nodup ∧
    lookup (cleanup_old_urls 0 90
      [("old.com", seenRec (some (DateStr.valid (-8640000)))),
       ("new.com", seenRec (some (DateStr.valid (-864000)))),
       ("bad.com", seenRec (some (DateStr.malformed "junk")))]) "old.com" =
      none ∧
    lookup (cleanup_old_urls 0 90
      [("old.com", seenRec (some (DateStr.valid (-8640000)))),
       ("new.com", seenRec (some (DateStr.valid (-864000)))),
       ("bad.com", seenRec (some (DateStr.malformed "junk")))]) "new.com" =
      some (seenRec (some (DateStr.valid (-864000)))) ∧
    lookup (cleanup_old_urls 0 90
      [("old.com", seenRec (some (DateStr.valid (-8640000)))),
       ("new.com", seenRec (some (DateStr.valid (-864000)))),
       ("bad.com", seenRec (some (DateStr.malformed "junk")))]) "bad.com" =
      some (seenRec (some (DateStr.malformed "junk"))) := by
  refine ⟨by decide, ?_, ?_, ?_⟩
  · rw [cleanup_old_urls_correct 0 90 _ (by decide) "old.com"]
    rfl
  · rw [cleanup_old_urls_correct 0 90 _ (by decide) "new.com"]
    rfl
  · rw [cleanup_old_urls_correct 0 90 _ (by decide) "bad.com"]
    rfl

/-- C7 counterexample: `load` is not exception-free — on a file whose
content is valid JSON but not an object (here the array `[1, 2, 3]`),
`data.get("urls", {})` raises `AttributeError`, which nothing catches. -/
theorem load_raises_on_json_array :
    load (FileState.parsed (Json.arr [Json.num 1, Json.num 2, Json.num 3])) =
      Except.error "AttributeError" := rfl

/-- C7 (amended): in each of the three enumerated situations — missing
file, content rejected by the JSON decoder, or a top-level JSON object
without the `"urls"` key — `load` yields the empty mapping without raising;
the claim's blanket "never raises" fails on non-object JSON content. -/
theorem load_cold_start (fields : List (String × Json))
    (h : fields.find? (fun p => p.1 == "urls") = none) :
    load FileState.missing = Except.ok (Json.obj []) ∧
    load FileState.invalidContent = Except.ok (Json.obj []) ∧
    load (FileState.parsed (Json.obj fields)) = Except.ok (Json.obj []) := by
  refine ⟨rfl, rfl, ?_⟩
  simp [load, jsonGet, h]

/-- C7 witness: a parsed object holding only `last_updated` (no `urls` key)
loads as the empty mapping. -/
theorem load_cold_start_witness :
    ([("last_updated", Json.str "2024-01-01")] :
        List (String × Json)).find? (fun p => p.1 == "urls") = none ∧
    load (FileState.parsed (Json.obj [("last_updated", Json.str "2024-01-01")])) =
      Except.ok (Json.obj []) :=
  ⟨rfl, (load_cold_start [("last_updated", Json.str "2024-01-01")] rfl).2.2⟩

/-- C8: across any single manager operation, a record present both before
and after the operation never sees `failed_attempts` decrease, except
`mark_crawled` with `success=True` on that URL, which resets it to 0. -/
theorem failed_attempts_monotone (op : Op) (s : Store) (u : String)
    (r r' : Record) (hwf : (keys s).Nodup)
    (hb : lookup s u = some r) (ha : lookup (applyOp op s) u = some r') :
    failedD r ≤ failedD r' ∨
      ∃ now, op = Op.markCrawled now u true ∧ failedD r' = 0 := by
  cases op with
  | addUrl now url m =>
    left
    simp only [applyOp] at ha
    by_cases hu : url = u
    · subst hu
      rw [lookup_add_url_self, hb] at ha
      obtain rfl := Option.some_inj.mp ha
      exact le_refl _
    · rw [lookup_add_url_ne now url m s u hu, hb] at ha
      obtain rfl := Option.some_inj.mp ha
      exact le_refl _
  | updateFromFullCrawl now d =>
    left
    simp only [applyOp] at ha
    rw [lookup_update_from_full_crawl now d s hwf u] at ha
    by_cases hd : u ∈ d
    · rw [if_pos hd, hb] at ha
      obtain rfl := Option.some_inj.mp ha
      exact le_refl _
    · rw [if_neg hd, hb] at ha
      simp only [Option.map_some'] at ha
      obtain rfl := Option.some_inj.mp ha
      rw [failedD_bump]
      omega
  | markCrawled now url b =>
    simp only [applyOp] at ha
    by_cases hu : url = u
    · subst hu
      cases b with
      | true =>
        right
        refine ⟨now, rfl, ?_⟩
        rw [(lookup_mark_crawled_self now url s r hb).1] at ha
        obtain rfl := Option.some_inj.mp ha
        rfl
      | false =>
        left
        rw [(lookup_mark_crawled_self now url s r hb).2] at ha
        obtain rfl := Option.some_inj.mp ha
        have hx : failedD { r with
                              last_crawled := some (DateStr.valid now),
                              failed_attempts := some (failedD r + 1) } =
            failedD r + 1 := rfl
        rw [hx]
        omega
    · left
      rw [lookup_mark_crawled_ne now url b s u hu, hb] at ha
      obtain rfl := Option.some_inj.mp ha
      exact le_refl _
  | cleanupOldUrls now days =>
    left
    simp only [applyOp] at ha
    rw [lookup_cleanup_old_urls now days s hwf u] at ha
    simp only [hb] at ha
    by_cases hrm : shouldRemove (now - days * secondsPerDay) r
    · rw [if_pos hrm] at ha
      exact absurd ha (by simp)
    · rw [if_neg hrm] at ha
      obtain rfl := Option.some_inj.mp ha
      exact le_refl _
  | getUrlsToCrawl =>
    left
    simp only [applyOp] at ha
    rw [hb] at ha
    obtain rfl := Option.some_inj.mp ha
    exact le_refl _
  | getStatistics now =>
    left
    simp only [applyOp] at ha
    rw [hb] at ha
    obtain rfl := Option.some_inj.mp ha
    exact le_refl _

/-- C8 witness: a failed `mark_crawled` on a record at `failed_attempts = 2`
leaves it at 3, which satisfies the monotonicity disjunction. -/
theorem failed_attempts_monotone_witness :
    (keys [("a.com", sampleRec (some 2))]).Nodup ∧
    lookup [("a.com", sampleRec (some 2))] "a.com" = some (sampleRec (some 2)) ∧
    lookup (applyOp (Op.markCrawled 7 "a.com" false)
        [("a.com", sampleRec (some 2))]) "a.com" =
      some { sampleRec (some 2) with
               last_crawled := some (DateStr.valid 7),
               failed_attempts := some (failedD (sampleRec (some 2)) + 1) } ∧
    (failedD (sampleRec (some 2)) ≤
        failedD { sampleRec (some 2) with
                    last_crawled := some (DateStr.valid 7),
                    failed_attempts := some (failedD (sampleRec (some 2)) + 1) } ∨
      ∃ now, Op.markCrawled 7 "a.com" false = Op.markCrawled now "a.com" true ∧
        failedD { sampleRec (some 2) with
                    last_crawled := some (DateStr.valid 7),
                    failed_attempts := some (failedD (sampleRec (some 2)) + 1) } = 0) :=
  ⟨by decide, rfl, rfl,
   failed_attempts_monotone (Op.markCrawled 7 "a.com" false)
     [("a.com", sampleRec (some 2))] "a.com" (sampleRec (some 2))
     { sampleRec (some 2) with
         last_crawled := some (DateStr.valid 7),
         failed_attempts := some (failedD (sampleRec (some 2)) + 1) }
     (by decide) rfl rfl⟩

/-- C9: `mark_crawled` on a URL absent from the store leaves the store
exactly as it was, for either success value: no record is created or
modified (and, being a total function here, nothing is raised). -/
theorem mark_crawled_unknown_noop (now : Int) (u : String) (b : Bool)
    (s : Store) (h : lookup s u = none) : mark_crawled now u b s = s := by
  unfold mark_crawled
  rw [h]

/-- C9 witness: marking the unknown b.com crawled, successfully or not,
returns the store unchanged. -/
theorem mark_crawled_unknown_noop_witness :
    lookup [("a.com", sampleRec (some 0))] "b.com" = none ∧
    mark_crawled 3 "b.com" true [("a.com", sampleRec (some 0))] =
      [("a.com", sampleRec (some 0))] ∧
    mark_crawled 3 "b.com" false [("a.com", sampleRec (some 0))] =
      [("a.com", sampleRec (some 0))] :=
  ⟨rfl, mark_crawled_unknown_noop 3 "b.com" true _ rfl,
    mark_crawled_unknown_noop 3 "b.com" false _ rfl⟩

/-- C10: a record whose dict lacks the `failed_attempts` key is read as 0 by
every reader without raising: `get_urls_to_crawl` includes its URL;
`get_statistics` does not count it failed (and `active_urls` is exactly
`total − failed`); `update_from_full_crawl` on a miss writes 1; and
`mark_crawled(success=False)` writes 1. -/
theorem missing_failed_attempts_defaults (s : Store) (u : String) (r : Record)
    (hwf : (keys s).Nodup) (hr : lookup s u = some r)
    (hfa : r.failed_attempts = none) :
    u ∈ get_urls_to_crawl s ∧
    (∀ rs : List Record, failedCount (rs ++ [r]) = failedCount rs) ∧
    (∀ now st, get_statistics now s = Except.ok st →
      st.active_urls = (st.total_urls : Int) - (st.failed_urls : Int) ∧
      st.failed_urls = failedCount (s.map Prod.snd)) ∧
    (∀ now d, u ∉ d →
      lookup (update_from_full_crawl now d s) u = some (bump r) ∧
        failedD (bump r) = 1) ∧
    (∀ now, lookup (mark_crawled now u false s) u =
        some { r with last_crawled := some (DateStr.valid now),
                      failed_attempts := some (failedD r + 1) } ∧
      failedD r + 1 = 1) := by
  have hfd : failedD r = 0 := by simp [failedD, hfa]
  refine ⟨?_, ?_, ?_, ?_, ?_⟩
  · exact (mem_get_urls_to_crawl s hwf u).mpr ⟨r, hr, by rw [hfd]; norm_num⟩
  · intro rs
    simp [failedCount, List.countP_append, hfd]
  · intro now st hst
    cases hcr : countRecent now (s.map Prod.snd) with
    | error e =>
      have hgs : get_statistics now s = Except.error e := by
        simp [get_statistics, hcr]
      rw [hgs] at hst
      exact absurd hst (by simp)
    | ok rc =>
      have hgs : get_statistics now s = Except.ok
          { total_urls := s.length
            active_urls := (s.length : Int) - (failedCount (s.map Prod.snd) : Int)
            failed_urls := failedCount (s.map Prod.snd)
            recently_crawled := rc } := by
        simp [get_statistics, hcr]
      rw [hgs] at hst
      obtain rfl := Except.ok.inj hst
      exact ⟨rfl, rfl⟩
  · intro now d hd
    refine ⟨?_, ?_⟩
    · rw [lookup_update_from_full_crawl now d s hwf u, if_neg hd, hr]
      rfl
    · rw [failedD_bump, hfd]
      decide
  · intro now
    exact ⟨(lookup_mark_crawled_self now u s r hr).2, by rw [hfd]; decide⟩

/-- C10 witness: with a.com lacking the `failed_attempts` key next to b.com
at 7 failures, every reader treats a.com as having 0 failures. -/
theorem missing_failed_attempts_defaults_witness :
    lookup [("a.com", noFaRec), ("b.com", sampleRec (some 7))] "a.com" =
      some noFaRec ∧
    noFaRec.failed_attempts = none ∧
    "a.com" ∈ get_urls_to_crawl [("a.com", noFaRec), ("b.com", sampleRec (some 7))] ∧
    failedCount ([] ++ [noFaRec]) = failedCount [] ∧
    lookup (update_from_full_crawl 4 ["b.com"]
      [("a.com", noFaRec), ("b.com", sampleRec (some 7))]) "a.com" =
      some (bump noFaRec) ∧
    failedD (bump noFaRec) = 1 ∧
    lookup (mark_crawled 4 "a.com" false
        [("a.com", noFaRec), ("b.com", sampleRec (some 7))]) "a.com" =
      some { noFaRec with
               last_crawled := some (DateStr.valid 4),
               failed_attempts := some (failedD noFaRec + 1) } ∧
    get_statistics 0 [("a.com", noFaRec), ("b.com", sampleRec (some 7))] =
      Except.ok { total_urls := 2, active_urls := 1, failed_urls := 1,
                  recently_crawled := 0 } := by
  have h := missing_failed_attempts_defaults
    [("a.com", noFaRec), ("b.com", sampleRec (some 7))] "a.com" noFaRec
    (by decide) rfl rfl
  exact ⟨rfl, rfl, h.1, h.2.1 [], (h.2.2.2.1 4 ["b.com"] (by decide)).1,
    (h.2.2.2.1 4 ["b.com"] (by decide)).2, (h.2.2.2.2 4).1, rfl⟩

end UrlMgr
